import Mathlib

/-!
Verification of the content-segmentation and multi-message delivery core of the
Aleph-Daily news pipeline (`scripts/telegram_sender.py`, plus the file-header
writer of `scripts/daily_news.py`).

Text is modelled as `List Char` (one element per Unicode code point, matching
Python's `str` indexing and `len`).  The specific regular expressions used by
the source are modelled by dedicated scanning functions whose leftmost-greedy
behaviour was derived from the patterns (`\n---+\n`, the numbered-header
lookahead, and the file-header pattern of `re.sub`).  `\d` and `\s` are
modelled by their ASCII meaning, which is exact for every input the pipeline
produces.  Network effects are modelled by an oracle
`responses : Nat → List Char → List Char → ChanResp` giving the channel's
reply to the n-th HTTP send of a digest delivery as a function of the posted
text and parse mode.
-/

namespace AlephDaily

/-- ASCII whitespace, the characters Python's `str.strip` and `\s` treat as
whitespace for the texts this pipeline handles. -/
def isPyWs (c : Char) : Bool :=
  c == ' ' || c == '\t' || c == '\n' || c == '\r' || c == '\x0b' || c == '\x0c'

/-- Python `str.strip()`. -/
def pyStrip (s : List Char) : List Char :=
  ((s.dropWhile isPyWs).reverse.dropWhile isPyWs).reverse

/-- Python slice `s[:j]` for an arbitrary (possibly negative) integer bound. -/
def pySliceTo (s : List Char) (j : Int) : List Char :=
  if 0 ≤ j then s.take j.toNat
  else s.take (s.length - (-j).toNat)

/-- Python `s.rfind(c)` for a single-character needle: the largest index whose
character is `c`, or `-1`. -/
def rfindChar (s : List Char) (c : Char) : Int :=
  match s.reverse.findIdx? (fun d => d == c) with
  | some i => (s.length : Int) - 1 - (i : Int)
  | none => -1

/-- `MAX_MESSAGE_LENGTH` from `telegram_sender.py`. -/
def MAX_MESSAGE_LENGTH : Int := 4096

/-- The truncation marker appended by `truncate_message`
(`"\n\n⋯ \\(訊息過長，已截斷\\)"`, 16 characters). -/
def truncIndicator : List Char := "\n\n⋯ \x5c(訊息過長，已截斷\x5c)".data

/-- The sentence-end characters `truncate_message` searches for, in order. -/
def truncEndChars : List Char := ['。', '.', '！', '!', '？', '?']

/-- The `for end_char in [...]` loop of `truncate_message`: the first end
character whose last occurrence lies past the halfway point wins. -/
def truncFindEnd (truncated : List Char) (maxLen : Int) : List Char → Option (List Char)
  | [] => none
  | c :: rest =>
      if Int.fdiv maxLen 2 < rfindChar truncated c then
        some (pySliceTo truncated (rfindChar truncated c + 1) ++ truncIndicator)
      else truncFindEnd truncated maxLen rest

/-- `truncate_message(text, max_length)` from `telegram_sender.py`. -/
def truncate_message (text : List Char) (max_length : Int) : List Char :=
  if (text.length : Int) ≤ max_length then text
  else
    let maxLen := max_length - 20
    let truncated := pySliceTo text maxLen
    match truncFindEnd truncated maxLen truncEndChars with
    | some r => r
    | none =>
        let lastNl := rfindChar truncated '\n'
        if Int.fdiv maxLen 2 < lastNl then pySliceTo truncated lastNl ++ truncIndicator
        else truncated ++ truncIndicator

/-! ### The separator split `re.split(r'\n---+\n', content)`

A match of `\n---+\n` at a position is: a newline, a maximal run of `d ≥ 3`
dashes, and a newline (backtracking cannot shorten the greedy dash run, since
the character required after it is a newline, never a dash).  `sepMatchN`
returns the number of characters such a match consumes at the head of the
input. -/

def sepMatchN (s : List Char) : Option Nat :=
  if s.head? = some '\n' then
    let cs := s.tail
    let ds := cs.takeWhile (fun c => c == '-')
    if 3 ≤ ds.length && ((cs.dropWhile (fun c => c == '-')).head? == some '\n') then
      some (ds.length + 2)
    else none
  else none

/-- Left-to-right scan of `re.split(r'\n---+\n', s)`: returns the pieces and,
in a second component, the separator substrings that were consumed between
them (so that the original string can be reassembled exactly).  The scan
advances by at least one character per step, so `fuel = s.length` (supplied by
the wrapper) always suffices; the fuel only makes the recursion structural. -/
def splitSepGo (fuel : Nat) (acc s : List Char) : List (List Char) × List (List Char) :=
  match fuel with
  | 0 => ([acc.reverse], [])
  | fuel + 1 =>
      match s with
      | [] => ([acc.reverse], [])
      | c :: cs =>
          match sepMatchN (c :: cs) with
          | some n =>
              let pr := splitSepGo fuel [] ((c :: cs).drop n)
              (acc.reverse :: pr.1, (c :: cs).take n :: pr.2)
          | none => splitSepGo fuel (c :: acc) cs

/-- The pieces of `re.split(r'\n---+\n', s)`. -/
def splitSep (s : List Char) : List (List Char) := (splitSepGo s.length [] s).1

/-- Reassemble pieces and separators: `interleaveSep (ps, seps)` concatenates
piece, separator, piece, separator, …  in order. -/
def interleaveSep : List (List Char) × List (List Char) → List Char
  | ([], _) => []
  | (p :: _, []) => p
  | (p :: ps, sep :: seps) => p ++ sep ++ interleaveSep (ps, seps)

/-! ### The numbered-header split
`re.split(r'(?=(?:^|\n)(?:#{1,3}\s*)?\d+[\.\)、])', content)` (no MULTILINE
flag, so `^` is only the start of the string).  The zero-width lookahead
splits immediately before each position where it matches. -/

/-- `\d+[\.\)、]` at the head of `t`: a nonempty maximal digit run followed by
one of `.`, `)`, `、`. -/
def numPunct (t : List Char) : Bool :=
  let rest := t.dropWhile Char.isDigit
  (rest.length < t.length) &&
    (match rest.head? with
     | some c => (c == '.') || (c == ')') || (c == '、')
     | none => false)

/-- `(?:#{1,3}\s*)?\d+[\.\)、]` at the head of `t`: optionally one to three
hashes (a maximal hash run of length ≤ 3; four or more hashes can never
match) followed by whitespace, then a numbered marker. -/
def headNum (t : List Char) : Bool :=
  let hs := t.takeWhile (fun c => c == '#')
  if hs.length == 0 then numPunct t
  else if hs.length ≤ 3 then numPunct ((t.dropWhile (fun c => c == '#')).dropWhile isPyWs)
  else false

/-- Scan splitting before every interior newline at which the lookahead
matches; the newline itself starts the next piece. -/
def numSplitGo (acc s : List Char) : List (List Char) :=
  match s with
  | [] => [acc.reverse]
  | c :: cs =>
      if c == '\n' && headNum cs then acc.reverse :: numSplitGo ['\n'] cs
      else numSplitGo (c :: acc) cs

/-- `re.split` with the numbered-header lookahead: a match at position 0 (via
the `^` branch) contributes a leading empty piece. -/
def numSplit (s : List Char) : List (List Char) :=
  if headNum s then [] :: numSplitGo [] s else numSplitGo [] s

/-! ### The file-header removal
`re.sub(r'^# Daily News - \d{4}-\d{2}-\d{2}\s*\n+>\s*Generated on[^\n]*\n+---\n*', '', content, flags=re.MULTILINE)`.
With MULTILINE, `^` matches at the start of the string and after every
newline.  Greedy semantics of each sub-pattern collapse to deterministic
maximal scans (see each helper). -/

def hdLit : List Char := "# Daily News - ".data
def genLit : List Char := "Generated on".data

/-- A literal: returns the remainder after the literal. -/
def expectLitR (lit s : List Char) : Option (List Char) :=
  if lit.isPrefixOf s then some (s.drop lit.length) else none

/-- `\d{n}`: exactly `n` digits must be available. -/
def expectDigitsR (n : Nat) (s : List Char) : Option (List Char) :=
  if n ≤ s.length && (s.take n).all Char.isDigit then some (s.drop n) else none

/-- `\s*\n+` immediately followed by a non-whitespace literal: the maximal
whitespace run must be nonempty and end with a newline. -/
def wsThenNlR (s : List Char) : Option (List Char) :=
  let r := s.takeWhile isPyWs
  if !r.isEmpty && (r.getLast? == some '\n') then some (s.dropWhile isPyWs) else none

/-- `[^\n]*\n+`: the rest of the line (which must end in at least one
newline) and then the maximal newline run. -/
def lineThenNlR (s : List Char) : Option (List Char) :=
  let rest := s.dropWhile (fun c => !(c == '\n'))
  if rest.isEmpty then none
  else some (rest.dropWhile (fun c => c == '\n'))

/-- The header pattern after its leading literal `# Daily News - `: date,
whitespace+newlines, `>`, whitespace, `Generated on`, rest of line,
newlines, `---`, trailing newlines.  Returns whether the match ended just
after a newline (so that the continuation position is again a line start for
MULTILINE `^`) and the number of characters consumed. -/
def headerMatchAfterTitle (s : List Char) : Option (Bool × Nat) :=
  (expectDigitsR 4 s).bind fun s1 =>
  (expectLitR ['-'] s1).bind fun s2 =>
  (expectDigitsR 2 s2).bind fun s3 =>
  (expectLitR ['-'] s3).bind fun s4 =>
  (expectDigitsR 2 s4).bind fun s5 =>
  (wsThenNlR s5).bind fun s6 =>
  (expectLitR ['>'] s6).bind fun s7 =>
  (expectLitR genLit (s7.dropWhile isPyWs)).bind fun s9 =>
  (lineThenNlR s9).bind fun s10 =>
  (expectLitR "---".data s10).bind fun s11 =>
  let s12 := s11.dropWhile (fun c => c == '\n')
  some (s11.head? == some '\n', s.length - s12.length)

/-- The `re.sub` scan: at every line start try the header pattern; on a match
drop the matched span (always at least the 15 characters of `# Daily News - `)
and continue after it, otherwise emit the character and continue.  The scan
advances by at least one character per step, so `fuel = s.length` (supplied by
the wrapper) always suffices; the fuel only makes the recursion structural. -/
def reSubGo (fuel : Nat) (atLS : Bool) (s : List Char) : List Char :=
  match fuel with
  | 0 => s
  | fuel + 1 =>
      match s with
      | [] => []
      | c :: cs =>
          if atLS && hdLit.isPrefixOf (c :: cs) then
            match headerMatchAfterTitle ((c :: cs).drop 15) with
            | some bk => reSubGo fuel bk.1 (cs.drop (14 + bk.2))
            | none => c :: reSubGo fuel (c == '\n') cs
          else c :: reSubGo fuel (c == '\n') cs

/-- The header-stripping `re.sub` of `parse_news_content`. -/
def reSubHeader (s : List Char) : List Char := reSubGo s.length true s

/-- `true` iff no line start of `s` (assuming `b` says whether the scan is
currently at a line start) carries the `# Daily News - ` literal, i.e. the
header `re.sub` cannot match anywhere. -/
def cleanScan (b : Bool) (s : List Char) : Bool :=
  match s with
  | [] => true
  | c :: cs => !(b && hdLit.isPrefixOf (c :: cs)) && cleanScan (c == '\n') cs

/-- Python's `in` test on strings: `needle` occurs as a contiguous substring
of the haystack. -/
def isSubstring (p s : List Char) : Bool :=
  match s with
  | [] => p.isEmpty
  | _ :: rest => p.isPrefixOf s || isSubstring p rest

/-! ### Section classification -/

/-- The boilerplate filter of `parse_news_content`. -/
def boilerPiece (s : List Char) : Bool :=
  "完整的報告已保存".data.isPrefixOf s || "完整報告已保存".data.isPrefixOf s

/-- Split on separators, strip every piece, drop empty pieces, drop
boilerplate pieces — the `sections` value of `parse_news_content`. -/
def sectionsOf (content : List Char) : List (List Char) :=
  (((splitSep content).map pyStrip).filter (fun s => !s.isEmpty)).filter
    (fun s => !(boilerPiece s))

/-- `re.match(r'^#\s*\d+[\.\)、]', section)` of `_is_news_item`: one hash,
whitespace, then a numbered marker. -/
def startsNumberedH1 (s : List Char) : Bool :=
  match s with
  | '#' :: rest => numPunct (rest.dropWhile isPyWs)
  | _ => false

/-- The source-marker substrings of `_is_news_item`. -/
def srcIndicators : List (List Char) :=
  ["來源：".data, "來源:".data, "來源平台".data, "**來源:**".data, "**來源：**".data,
   "**來源平台**".data, "Hacker News".data, "GitHub Trending".data, "Product Hunt".data]

/-- `_is_news_item` from `telegram_sender.py`. -/
def is_news_item (s : List Char) : Bool :=
  let starts_with_numbered_h1 := startsNumberedH1 s
  let starts_with_h3 := "###".data.isPrefixOf s
  let starts_with_bold := "**".data.isPrefixOf s
  let has_source := srcIndicators.any (fun p => isSubstring p s)
  let has_link := isSubstring "🔗".data s || isSubstring "連結：".data s || isSubstring "連結:".data s
  let has_popularity := isSubstring "熱度".data s || isSubstring "points".data s
  let has_thinking := isSubstring "思考問題".data s || isSubstring "**思考問題**".data s
  let has_summary := isSubstring "重點摘要".data s || isSubstring "**重點摘要**".data s
  if starts_with_numbered_h1 then true
  else if (starts_with_h3 || starts_with_bold) && (has_source || has_link || has_popularity) then true
  else if has_source && has_link then true
  else if has_source && (has_thinking || has_summary) then true
  else false

/-- The classification loop of `parse_news_content` (overview accumulator,
item accumulator, `in_news_section` flag). -/
def classifyGo (ovAcc itAcc : List (List Char)) (inNews : Bool) :
    List (List Char) → List (List Char) × List (List Char)
  | [] => (ovAcc.reverse, itAcc.reverse)
  | s :: rest =>
      if is_news_item s then classifyGo ovAcc (s :: itAcc) true rest
      else if inNews then classifyGo ovAcc (s :: itAcc) inNews rest
      else classifyGo (s :: ovAcc) itAcc inNews rest

/-- Classify the retained sections into overview parts and news items. -/
def classifySections (sections : List (List Char)) :
    List (List Char) × List (List Char) :=
  classifyGo [] [] false sections

/-- `parse_news_content` from `telegram_sender.py`. -/
def parse_news_content (content0 : List Char) : List Char × List (List Char) :=
  let content := reSubHeader content0
  let sections := sectionsOf content
  if sections.length ≤ 1 then
    let parts := numSplit content
    if 1 < parts.length then
      (pyStrip (parts.headD []),
       (parts.tail.map pyStrip).filter (fun s => !s.isEmpty))
    else (pyStrip content, [])
  else
    let cl := classifySections sections
    (List.intercalate "\n\n".data cl.1, cl.2)

/-! ### The delivery pipeline

`send_message` performs one HTTP POST per attempt.  The channel's behaviour is
an oracle `responses : Nat → List Char → List Char → ChanResp` giving the
reply to the n-th HTTP attempt of a digest delivery as a function of the text
and parse mode posted; `send_message` threads the index of the next attempt. -/

/-- The channel's reply to one HTTP send: a JSON response with `ok = true`
and a message id, a JSON response with `ok = false` and an error description,
or a raised transport exception (`Timeout` / `RequestException` / other),
carrying the error string the corresponding `except` branch produces. -/
inductive ChanResp where
  | ok (messageId : Nat)
  | err (description : List Char)
  | exn (message : List Char)
deriving DecidableEq

def ChanResp.isOk : ChanResp → Bool
  | .ok _ => true
  | _ => false

def ChanResp.idOf : ChanResp → Nat
  | .ok i => i
  | _ => 0

/-- `TelegramResult` from `telegram_sender.py`. -/
structure TelegramResult where
  success : Bool
  message_id : Option Nat
  messages_sent : Nat
  error : Option (List Char)
deriving DecidableEq

/-- The parse-failure phrase `send_message` looks for in the error
description (`"can't parse"`). -/
def cantParsePhrase : List Char := "can\x27t parse".data

/-- `"MarkdownV2"`, the default parse mode. -/
def mdv2 : List Char := "MarkdownV2".data

/-- `send_message` from `telegram_sender.py`.  Returns the `TelegramResult`
together with the index of the next unused channel response (so the number of
HTTP attempts consumed is visible).  A markup-parse failure with a parse mode
set recursively retries once with the parse mode cleared; since the cleared
mode makes the retry guard false, the recursion is at most one level deep and
is written here as its exact one-level unrolling (the inner block is the body
of `send_message` with `parse_mode = ""`, whose own retry branch is
unreachable). -/
def send_message (bot_token chat_id text parse_mode : List Char)
    (disable_web_page_preview : Bool)
    (responses : Nat → List Char → List Char → ChanResp) (k : Nat) :
    TelegramResult × Nat :=
  if bot_token = [] ∨ chat_id = [] then
    (⟨false, none, 0, some "Bot token or chat ID not provided".data⟩, k)
  else
    match responses k text parse_mode with
    | .ok mid => (⟨true, some mid, 1, none⟩, k + 1)
    | .err desc =>
        if isSubstring cantParsePhrase (desc.map Char.toLower) && !parse_mode.isEmpty then
          if bot_token = [] ∨ chat_id = [] then
            (⟨false, none, 0, some "Bot token or chat ID not provided".data⟩, k + 1)
          else
            match responses (k + 1) text [] with
            | .ok mid => (⟨true, some mid, 1, none⟩, k + 2)
            | .err desc2 => (⟨false, none, 0, some desc2⟩, k + 2)
            | .exn msg => (⟨false, none, 0, some msg⟩, k + 2)
        else (⟨false, none, 0, some desc⟩, k + 1)
    | .exn msg => (⟨false, none, 0, some msg⟩, k + 1)

/-- `convert_markdown_to_telegram`: the external `telegramify_markdown`
library is the oracle `conv` (`none` models a raised exception); on failure
the original text is returned unmodified. -/
def convert_markdown_to_telegram (conv : List Char → Option (List Char))
    (text : List Char) : List Char :=
  match conv text with
  | some t => t
  | none => text

/-- `build_github_file_url` from `telegram_sender.py`. -/
def build_github_file_url (repo branch file_path : List Char) : List Char :=
  "https://github.com/".data ++ repo ++ "/blob/".data ++ branch ++ "/".data ++ file_path

/-- `format_overview_message` from `telegram_sender.py`. -/
def format_overview_message (overview date_str : List Char)
    (github_url : Option (List Char)) : List Char :=
  let content := "🗞️ **每日新聞總覽 - ".data ++ date_str ++ "**\n\n".data ++ overview
  match github_url with
  | some url => content ++ "\n\n---\n\n📎 [完整報告](".data ++ url ++ ")".data
  | none => content

/-- Decimal rendering of a natural number, as Python's string formatting. -/
def natStr (n : Nat) : List Char := (Nat.repr n).data

/-- `format_news_item_message` from `telegram_sender.py`. -/
def format_news_item_message (item : List Char) (index total : Nat) : List Char :=
  "📰 **新聞 ".data ++ natStr index ++ "/".data ++ natStr total ++ "**\n\n".data ++ item

/-- The mutable state of `send_news_digest`: `messages_sent`,
`first_message_id`, the `errors` list, and (a modelling artifact) the index
of the next channel response, i.e. how many HTTP sends have happened. -/
structure DigestAcc where
  messages_sent : Nat
  first_message_id : Option Nat
  errors : List (List Char)
  attempts : Nat
deriving DecidableEq

/-- The `for i, item in enumerate(news_items, start=1)` loop of
`send_news_digest` (the inter-message `time.sleep` delay has no effect on the
computed state and is not modelled). -/
def send_items_loop (bot chat : List Char) (conv : List Char → Option (List Char))
    (responses : Nat → List Char → List Char → ChanResp) (total : Nat) :
    List (List Char) → Nat → DigestAcc → DigestAcc
  | [], _, st => st
  | item :: rest, i, st =>
      let msg := truncate_message (convert_markdown_to_telegram conv
                   (format_news_item_message item i total)) MAX_MESSAGE_LENGTH
      let r := send_message bot chat msg mdv2 true responses st.attempts
      let st' :=
        if r.1.success then
          ⟨st.messages_sent + 1,
           (match st.first_message_id with
            | some m => some m
            | none => r.1.message_id),
           st.errors, r.2⟩
        else
          ⟨st.messages_sent, st.first_message_id,
           st.errors ++ ["News ".data ++ natStr i ++ ": ".data ++ r.1.error.getD []], r.2⟩
      send_items_loop bot chat conv responses total rest (i + 1) st'

/-- `send_news_digest` from `telegram_sender.py`, returning both the
`TelegramResult` and the final internal state (per-unit error labels and the
number of HTTP sends made).  The progress callback and console printing are
pure side effects and are not modelled. -/
def send_news_digest_core (bot chat news_content date_str : List Char)
    (github_repo : Option (List Char)) (github_branch : List Char)
    (conv : List Char → Option (List Char)) (responses : Nat → List Char → List Char → ChanResp) :
    TelegramResult × DigestAcc :=
  let pr := parse_news_content news_content
  let overview := pr.1
  let news_items := pr.2
  let github_url := github_repo.map (fun repo =>
      build_github_file_url repo github_branch ("news/".data ++ date_str ++ ".md".data))
  let ovMsg := truncate_message (convert_markdown_to_telegram conv
      (format_overview_message overview date_str github_url)) MAX_MESSAGE_LENGTH
  let r0 := send_message bot chat ovMsg mdv2 true responses 0
  let st0 : DigestAcc :=
    if r0.1.success then ⟨1, r0.1.message_id, [], r0.2⟩
    else ⟨0, none, ["Overview: ".data ++ r0.1.error.getD []], r0.2⟩
  let st := send_items_loop bot chat conv responses news_items.length news_items 1 st0
  if news_items = [] then
    let fullMsg := truncate_message (convert_markdown_to_telegram conv
        (format_overview_message news_content date_str github_url)) MAX_MESSAGE_LENGTH
    let r1 := send_message bot chat fullMsg mdv2 true responses st.attempts
    if r1.1.success then
      (⟨true, r1.1.message_id, 1, none⟩,
       ⟨st.messages_sent, st.first_message_id, st.errors, r1.2⟩)
    else
      (⟨false, none, 0, r1.1.error⟩,
       ⟨st.messages_sent, st.first_message_id, st.errors, r1.2⟩)
  else if st.messages_sent = 0 then
    (⟨false, none, 0,
      some (if st.errors.isEmpty then "No messages sent".data
            else List.intercalate "; ".data st.errors)⟩, st)
  else
    (⟨true, st.first_message_id, st.messages_sent,
      if st.errors.isEmpty then none
      else some (natStr st.errors.length ++ " 則訊息發送失敗".data)⟩, st)

/-- The `TelegramResult` returned to the caller by `send_news_digest`. -/
def send_news_digest (bot chat news_content date_str : List Char)
    (github_repo : Option (List Char)) (github_branch : List Char)
    (conv : List Char → Option (List Char)) (responses : Nat → List Char → List Char → ChanResp) :
    TelegramResult :=
  (send_news_digest_core bot chat news_content date_str github_repo github_branch
    conv responses).1

/-! ### The file writer of `daily_news.py` -/

/-- The metadata header `save_news_to_file` prepends
(`f"# Daily News - {date_str}\n\n> Generated on {timestamp}\n\n---\n\n"`). -/
def news_file_header (date_str timestamp : List Char) : List Char :=
  "# Daily News - ".data ++ date_str ++ "\n\n> Generated on ".data ++ timestamp
    ++ "\n\n---\n\n".data

/-- The full file content written by `save_news_to_file`: header, digest, and
a final newline (from the closing `"""` line of the f-string). -/
def saved_file_content (content date_str timestamp : List Char) : List Char :=
  news_file_header date_str timestamp ++ content ++ ['\n']

/-- The `YYYY-MM-DD` shape `strftime("%Y-%m-%d")` produces and the header
pattern's `\d{4}-\d{2}-\d{2}` recognizes. -/
def dateShaped (d : List Char) : Bool :=
  match d with
  | [y1, y2, y3, y4, c1, m1, m2, c2, d1, d2] =>
      y1.isDigit && y2.isDigit && y3.isDigit && y4.isDigit && (c1 == '-') &&
      m1.isDigit && m2.isDigit && (c2 == '-') && d1.isDigit && d2.isDigit
  | _ => false

/-- `true` iff the text ends with a newline followed by a run of at least
three dashes — the only shape whose trailing newline (added by the file
writer) completes a new `\n---+\n` separator match. -/
def endsWithSepB (x : List Char) : Bool :=
  let r := x.reverse
  (3 ≤ (r.takeWhile (fun c => c == '-')).length) &&
    ((r.dropWhile (fun c => c == '-')).head? == some '\n')

/-- The same condition as an existential. -/
def EndsWithSep (x : List Char) : Prop :=
  ∃ u n, 3 ≤ n ∧ x = u ++ '\n' :: List.replicate n '-'

/-- Replace the last element of a list by `f` of it. -/
def mapLast (f : List Char → List Char) : List (List Char) → List (List Char)
  | [] => []
  | [a] => [f a]
  | a :: b :: rest => a :: mapLast f (b :: rest)

/-! ## General list lemmas -/

theorem takeWhile_append_eq (p : Char → Bool) (a b : List Char) :
    (a ++ b).takeWhile p = if a.all p then a ++ b.takeWhile p else a.takeWhile p := by
  induction a with
  | nil => simp
  | cons x xs ih =>
      by_cases hx : p x
      · simp only [List.cons_append, List.takeWhile_cons, hx, if_true, ih, List.all_cons,
          Bool.true_and]
        split <;> rfl
      · simp [List.takeWhile_cons, hx, List.all_cons]

theorem dropWhile_append_eq (p : Char → Bool) (a b : List Char) :
    (a ++ b).dropWhile p = if a.all p then b.dropWhile p else a.dropWhile p ++ b := by
  induction a with
  | nil => simp
  | cons x xs ih =>
      by_cases hx : p x
      · simp only [List.cons_append, List.dropWhile_cons, hx, if_true, ih, List.all_cons,
          Bool.true_and]
      · simp [List.dropWhile_cons, hx, List.all_cons]

theorem isPrefixOf_append_one (l x : List Char) (a : Char) (h : a ∉ l) :
    l.isPrefixOf (x ++ [a]) = l.isPrefixOf x := by
  induction l generalizing x with
  | nil => simp [List.isPrefixOf]
  | cons h₀ t ih =>
      cases x with
      | nil =>
          simp only [List.nil_append, List.isPrefixOf]
          have : (h₀ == a) = false := by
            simp only [beq_eq_false_iff_ne]
            intro he; exact h (he ▸ List.mem_cons_self h₀ t)
          simp [this]
      | cons x₀ xs =>
          simp only [List.cons_append, List.isPrefixOf, List.append_eq]
          rw [ih xs (fun hm => h (List.mem_cons_of_mem h₀ hm))]

theorem head?_append_of_ne_nil (a b : List Char) (h : a ≠ []) :
    (a ++ b).head? = a.head? := by
  cases a with
  | nil => exact absurd rfl h
  | cons x xs => simp

/-! ## Classification monotonicity (the loop of `parse_news_content`) -/

theorem classifyGo_true_eq (sections : List (List Char)) :
    ∀ ovAcc itAcc, classifyGo ovAcc itAcc true sections =
      (ovAcc.reverse, itAcc.reverse ++ sections) := by
  induction sections with
  | nil => intro ovAcc itAcc; simp [classifyGo]
  | cons s rest ih =>
      intro ovAcc itAcc
      by_cases hs : is_news_item s <;> simp [classifyGo, hs, ih]

theorem classifyGo_false_eq (sections : List (List Char)) :
    ∀ ovAcc itAcc, classifyGo ovAcc itAcc false sections =
      (ovAcc.reverse ++ sections.takeWhile (fun s => !is_news_item s),
       itAcc.reverse ++ sections.dropWhile (fun s => !is_news_item s)) := by
  induction sections with
  | nil => intro ovAcc itAcc; simp [classifyGo]
  | cons s rest ih =>
      intro ovAcc itAcc
      by_cases hs : is_news_item s
      · simp [classifyGo, hs, classifyGo_true_eq, List.takeWhile_cons, List.dropWhile_cons]
      · simp [classifyGo, hs, ih, List.takeWhile_cons, List.dropWhile_cons]

/-- Claim C3: item classification in `parse_news_content` is monotone — the
overview parts are exactly the sections before the first section that
`_is_news_item` accepts, and every section from that point on (whatever
`_is_news_item` says about it) is classified as a news item. -/
theorem classification_monotone (sections : List (List Char)) :
    classifySections sections =
      (sections.takeWhile (fun s => !is_news_item s),
       sections.dropWhile (fun s => !is_news_item s)) := by
  simpa using classifyGo_false_eq sections [] []

/-- Claim C7: the concrete two-item scenario from the specification. -/
theorem parse_concrete_scenario :
    parse_news_content
        "Intro text\n---\n### 1. Title A\n來源: X\n🔗 link\n---\n### 2. Title B\n來源: Y\n🔗 link".data =
      ("Intro text".data,
       ["### 1. Title A\n來源: X\n🔗 link".data, "### 2. Title B\n來源: Y\n🔗 link".data]) := by
  decide

/-- Claim C8: `convert_markdown_to_telegram` never raises — when the
underlying conversion fails (raises), the original text is returned
unmodified. -/
theorem convert_markdown_never_raises (conv : List Char → Option (List Char))
    (text : List Char) (h : conv text = none) :
    convert_markdown_to_telegram conv text = text := by
  simp [convert_markdown_to_telegram, h]

theorem convert_markdown_never_raises_witness :
    convert_markdown_to_telegram (fun _ => none) "x".data = "x".data :=
  convert_markdown_never_raises (fun _ => none) "x".data rfl

/-- Claim C10: with an empty bot token or chat id, `send_message` fails with
the fixed error message and consumes no channel response (the returned next
attempt index is unchanged — no network request was attempted). -/
theorem send_message_missing_creds (bot chat text pm : List Char) (dp : Bool)
    (responses : Nat → List Char → List Char → ChanResp) (k : Nat)
    (h : bot = [] ∨ chat = []) :
    send_message bot chat text pm dp responses k =
      (⟨false, none, 0, some "Bot token or chat ID not provided".data⟩, k) := by
  rw [send_message]
  simp [h]

theorem send_message_missing_creds_witness :
    send_message [] "c".data "t".data mdv2 true (fun n _ _ => ChanResp.ok n) 5 =
      (⟨false, none, 0, some "Bot token or chat ID not provided".data⟩, 5) :=
  send_message_missing_creds [] "c".data "t".data mdv2 true (fun n _ _ => ChanResp.ok n) 5
    (Or.inl rfl)

/-- Claim C5: a channel rejection whose description contains the
parse-failure phrase (case-insensitively) while a parse mode was set makes
`send_message` retry exactly once — the same text with the parse mode
cleared; if that retry also fails, the failure is final: exactly two channel
responses are consumed in total and the result is a failure. -/
theorem send_message_parse_retry (bot chat text pm d : List Char) (dp : Bool)
    (responses : Nat → List Char → List Char → ChanResp) (k : Nat)
    (hb : bot ≠ []) (hc : chat ≠ []) (hp : pm ≠ [])
    (hk : responses k text pm = ChanResp.err d)
    (hd : isSubstring cantParsePhrase (d.map Char.toLower) = true) :
    send_message bot chat text pm dp responses k =
      send_message bot chat text [] dp responses (k + 1) ∧
    ((responses (k + 1) text []).isOk = false →
      (send_message bot chat text [] dp responses (k + 1)).2 = k + 2 ∧
      (send_message bot chat text [] dp responses (k + 1)).1.success = false) := by
  have hpm : pm.isEmpty = false := by
    cases pm with
    | nil => exact absurd rfl hp
    | cons a l => rfl
  constructor
  · rw [send_message, send_message]
    simp [hb, hc, hk, hd, hpm]
  · intro hfail
    rw [send_message]
    cases hr : responses (k + 1) text [] with
    | ok mid => rw [hr] at hfail; simp [ChanResp.isOk] at hfail
    | err d2 => simp [hb, hc, hr]
    | exn m => simp [hb, hc, hr]

theorem send_message_parse_retry_witness :
    (send_message "t".data "c".data "msg".data mdv2 true
        (fun _ _ _ => ChanResp.err "Bad Request: can\x27t parse entities".data) 0 =
      send_message "t".data "c".data "msg".data [] true
        (fun _ _ _ => ChanResp.err "Bad Request: can\x27t parse entities".data) 1) ∧
    ((ChanResp.err "Bad Request: can\x27t parse entities".data).isOk = false →
      (send_message "t".data "c".data "msg".data [] true
          (fun _ _ _ => ChanResp.err "Bad Request: can\x27t parse entities".data) 1).2 = 2 ∧
      (send_message "t".data "c".data "msg".data [] true
          (fun _ _ _ => ChanResp.err "Bad Request: can\x27t parse entities".data) 1).1.success
        = false) :=
  send_message_parse_retry "t".data "c".data "msg".data mdv2
    "Bad Request: can\x27t parse entities".data true
    (fun _ _ _ => ChanResp.err "Bad Request: can\x27t parse entities".data) 0
    (by decide) (by decide) (by decide) rfl (by decide)

/-! ## The message chunker (claim C4) -/

theorem truncIndicator_length : truncIndicator.length = 16 := rfl

theorem pySliceTo_length_le (s : List Char) (j : Int) :
    (pySliceTo s j).length ≤ s.length := by
  unfold pySliceTo
  split <;> simp [List.length_take]

theorem pySliceTo_length_le_of_nonneg (s : List Char) (j : Int) (h : 0 ≤ j) :
    ((pySliceTo s j).length : Int) ≤ j := by
  unfold pySliceTo
  rw [if_pos h]
  have : (s.take j.toNat).length ≤ j.toNat := by simp [List.length_take]
  omega

theorem truncFindEnd_length (t : List Char) (m : Int) :
    ∀ cs r, truncFindEnd t m cs = some r → r.length ≤ t.length + 16 := by
  intro cs
  induction cs with
  | nil => intro r hr; simp [truncFindEnd] at hr
  | cons c rest ih =>
      intro r hr
      unfold truncFindEnd at hr
      split at hr
      · cases hr
        have := pySliceTo_length_le t (rfindChar t c + 1)
        simp only [List.length_append, truncIndicator_length]
        omega
      · exact ih r hr

/-- Claim C4 is false as stated: universally over limits the length bound
fails — with limit 10 and a 30-character text, the reserved marker budget
makes the slice bound negative (a Python negative slice) and the result has
16 characters. -/
theorem truncate_limit_violated :
    ¬ (((truncate_message (List.replicate 30 'a') 10).length : Int) ≤ 10) := by decide

/-- Claim C4 (amended): for every text, `truncate_message` returns a string
of length at most the limit whenever the limit is at least 20 (the reserved
truncation-marker budget); and for every limit — also below 20 — a text that
already fits is returned unchanged. -/
theorem truncate_message_bounds (text : List Char) (limit : Int) :
    (20 ≤ limit → ((truncate_message text limit).length : Int) ≤ limit) ∧
    ((text.length : Int) ≤ limit → truncate_message text limit = text) := by
  refine ⟨fun h => ?_, fun hlen => by simp [truncate_message, hlen]⟩
  by_cases hlen : (text.length : Int) ≤ limit
  · simpa [truncate_message, hlen] using hlen
  · have hnn : (0 : Int) ≤ limit - 20 := by omega
    have htr : ((pySliceTo text (limit - 20)).length : Int) ≤ limit - 20 :=
      pySliceTo_length_le_of_nonneg text (limit - 20) hnn
    rw [truncate_message, if_neg hlen]
    cases hfe : truncFindEnd (pySliceTo text (limit - 20)) (limit - 20) truncEndChars with
    | some r =>
        have hb := truncFindEnd_length (pySliceTo text (limit - 20)) (limit - 20)
          truncEndChars r hfe
        simp only [hfe]
        push_cast at hb htr ⊢
        omega
    | none =>
        simp only [hfe]
        split
        · have hb := pySliceTo_length_le (pySliceTo text (limit - 20))
            (rfindChar (pySliceTo text (limit - 20)) '\n')
          simp only [List.length_append, truncIndicator_length]
          push_cast at hb htr ⊢
          omega
        · simp only [List.length_append, truncIndicator_length]
          push_cast at htr ⊢
          omega

theorem truncate_message_bounds_witness :
    (20 ≤ (25 : Int) ∧ ((truncate_message (List.replicate 30 'a') 25).length : Int) ≤ 25) ∧
    (((List.replicate 5 'a').length : Int) ≤ 10 ∧
      truncate_message (List.replicate 5 'a') 10 = List.replicate 5 'a') :=
  ⟨⟨by decide, (truncate_message_bounds (List.replicate 30 'a') 25).1 (by decide)⟩,
   ⟨by decide, (truncate_message_bounds (List.replicate 5 'a') 10).2 (by decide)⟩⟩

/-! ## The empty-items fallback path (claims C1 and C2) -/

/-- Claim C1 (code bug): on a digest that parses to an empty item list the
code does NOT send the whole digest as the sole message — it first sends the
overview message (which on this path carries the same digest text)
unconditionally, and then sends the whole digest again as the "single"
fallback message.  With an all-accepting channel handing out ids 1, 2, … the
delivery makes two HTTP sends (final attempt index 2) and the overview send
already succeeded (internal counter 1, first recorded id 1), while the
returned result reports only the fallback send (messages_sent 1, id 2). -/
theorem empty_items_fallback_double_send :
    parse_news_content "hello".data = ("hello".data, []) ∧
    send_news_digest_core "t".data "c".data "hello".data "2026-01-01".data none "main".data
        (fun t => some t) (fun n _ _ => ChanResp.ok (n + 1)) =
      (⟨true, some 2, 1, none⟩, ⟨1, some 1, [], 2⟩) :=
  ⟨by decide, by decide⟩

/-- Claim C2 is false as stated, on the empty-items fallback path: with every
send succeeding (ids 1, 2, …), the first unit that succeeded is the overview
send — the code's own `first_message_id` state records id 1 — but the
returned `message_id` is 2, the id of the fallback send, so the returned
identifier is not that of the first successful unit. -/
theorem digest_first_reference_mismatch :
    (send_news_digest "t".data "c".data "hello".data "2026-01-01".data none "main".data
        (fun t => some t) (fun n _ _ => ChanResp.ok (n + 1))).message_id = some 2 ∧
    (send_news_digest_core "t".data "c".data "hello".data "2026-01-01".data none "main".data
        (fun t => some t) (fun n _ _ => ChanResp.ok (n + 1))).2.first_message_id = some 1 ∧
    (2 : Nat) ≠ 1 :=
  ⟨by decide, by decide, by decide⟩

/-- Claim C6 is false as stated: returned segments are stripped, so their
exact concatenation loses whitespace adjacent to separators (here the space
after "Intro"); and the summary component is the empty string when every
piece is classified as an item. -/
theorem segmentation_partition_violated :
    ((parse_news_content "Intro \n---\n### T\n來源:x\n🔗 l".data).1 ++
        (parse_news_content "Intro \n---\n### T\n來源:x\n🔗 l".data).2.flatten ≠
      (splitSep "Intro \n---\n### T\n來源:x\n🔗 l".data).flatten) ∧
    (parse_news_content "### 1. x\n來源:a\n🔗 b\n---\n### 2. y\n來源:c\n🔗 d".data).1 = [] :=
  ⟨by decide, by decide⟩

/-! ## Delivery aggregation (claim C2) -/

theorem send_message_ok (bot chat text pm : List Char) (dp : Bool)
    (responses : Nat → List Char → List Char → ChanResp) (k : Nat)
    (hb : bot ≠ []) (hc : chat ≠ []) (mid : Nat)
    (hk : responses k text pm = ChanResp.ok mid) :
    send_message bot chat text pm dp responses k = (⟨true, some mid, 1, none⟩, k + 1) := by
  rw [send_message]
  simp [hb, hc, hk]

theorem send_message_exn (bot chat text pm : List Char) (dp : Bool)
    (responses : Nat → List Char → List Char → ChanResp) (k : Nat)
    (hb : bot ≠ []) (hc : chat ≠ []) (m : List Char)
    (hk : responses k text pm = ChanResp.exn m) :
    send_message bot chat text pm dp responses k = (⟨false, none, 0, some m⟩, k + 1) := by
  rw [send_message]
  simp [hb, hc, hk]

theorem send_message_fail (bot chat text pm : List Char) (dp : Bool)
    (responses : Nat → List Char → List Char → ChanResp) (k : Nat)
    (hb : bot ≠ []) (hc : chat ≠ [])
    (h0 : (responses k text pm).isOk = false)
    (h1 : (responses (k + 1) text []).isOk = false) :
    (send_message bot chat text pm dp responses k).1.success = false := by
  rw [send_message]
  cases hr : responses k text pm with
  | ok mid => rw [hr] at h0; simp [ChanResp.isOk] at h0
  | err d =>
      simp only [hb, hc, or_self, false_or, or_false, if_false]
      split
      · cases hr1 : responses (k + 1) text [] with
        | ok mid => rw [hr1] at h1; simp [ChanResp.isOk] at h1
        | err d2 => simp [hb, hc, hr1]
        | exn m => simp [hb, hc, hr1]
      · simp
  | exn m => simp [hb, hc]

theorem send_items_loop_ok_some (bot chat : List Char)
    (conv : List Char → Option (List Char))
    (responses : Nat → List Char → List Char → ChanResp) (total : Nat)
    (hb : bot ≠ []) (hc : chat ≠ []) (ids : Nat → Nat) :
    ∀ (items : List (List Char)) (i : Nat) (st : DigestAcc) (m : Nat),
      st.first_message_id = some m →
      (∀ n t pm, st.attempts ≤ n → responses n t pm = ChanResp.ok (ids n)) →
      send_items_loop bot chat conv responses total items i st =
        ⟨st.messages_sent + items.length, some m, st.errors,
         st.attempts + items.length⟩ := by
  intro items
  induction items with
  | nil =>
      intro i st m hm _
      cases st
      simp_all [send_items_loop]
  | cons item rest ih =>
      intro i st m hm hok
      rw [send_items_loop,
        send_message_ok bot chat _ mdv2 true responses st.attempts hb hc (ids st.attempts)
          (hok st.attempts _ _ (Nat.le_refl _))]
      simp only [if_true, hm]
      rw [ih (i + 1) _ m rfl (fun n t pm hn => hok n t pm (Nat.le_trans (Nat.le_succ _) hn))]
      simp only [DigestAcc.mk.injEq, List.length_cons, and_true, true_and]
      omega

theorem send_items_loop_ok_none (bot chat : List Char)
    (conv : List Char → Option (List Char))
    (responses : Nat → List Char → List Char → ChanResp) (total : Nat)
    (hb : bot ≠ []) (hc : chat ≠ []) (ids : Nat → Nat)
    (item : List Char) (rest : List (List Char)) (i : Nat) (st : DigestAcc)
    (hm : st.first_message_id = none)
    (hok : ∀ n t pm, st.attempts ≤ n → responses n t pm = ChanResp.ok (ids n)) :
    send_items_loop bot chat conv responses total (item :: rest) i st =
      ⟨st.messages_sent + (item :: rest).length, some (ids st.attempts), st.errors,
       st.attempts + (item :: rest).length⟩ := by
  rw [send_items_loop,
    send_message_ok bot chat _ mdv2 true responses st.attempts hb hc (ids st.attempts)
      (hok st.attempts _ _ (Nat.le_refl _))]
  simp only [if_true, hm]
  rw [send_items_loop_ok_some bot chat conv responses total hb hc ids rest (i + 1) _
    (ids st.attempts) rfl (fun n t pm hn => hok n t pm (Nat.le_trans (Nat.le_succ _) hn))]
  simp only [DigestAcc.mk.injEq, List.length_cons, and_true, true_and]
  omega

theorem send_items_loop_all_fail (bot chat : List Char)
    (conv : List Char → Option (List Char))
    (responses : Nat → List Char → List Char → ChanResp) (total : Nat)
    (hb : bot ≠ []) (hc : chat ≠ [])
    (hfail : ∀ n t pm, (responses n t pm).isOk = false) :
    ∀ (items : List (List Char)) (i : Nat) (st : DigestAcc),
      (send_items_loop bot chat conv responses total items i st).messages_sent =
          st.messages_sent ∧
      (send_items_loop bot chat conv responses total items i st).first_message_id =
          st.first_message_id ∧
      (send_items_loop bot chat conv responses total items i st).errors.length =
          st.errors.length + items.length := by
  intro items
  induction items with
  | nil => intro i st; simp [send_items_loop]
  | cons item rest ih =>
      intro i st
      rw [send_items_loop]
      have hfl := send_message_fail bot chat
        (truncate_message (convert_markdown_to_telegram conv
          (format_news_item_message item i total)) MAX_MESSAGE_LENGTH)
        mdv2 true responses st.attempts hb hc (hfail _ _ _) (hfail _ _ _)
      simp only [hfl, Bool.false_eq_true, if_false]
      obtain ⟨h1, h2, h3⟩ := ih (i + 1)
        ⟨st.messages_sent, st.first_message_id,
         st.errors ++ ["News ".data ++ natStr i ++ ": ".data ++
           ((send_message bot chat (truncate_message (convert_markdown_to_telegram conv
             (format_news_item_message item i total)) MAX_MESSAGE_LENGTH)
             mdv2 true responses st.attempts).1.error.getD [])],
         (send_message bot chat (truncate_message (convert_markdown_to_telegram conv
           (format_news_item_message item i total)) MAX_MESSAGE_LENGTH)
           mdv2 true responses st.attempts).2⟩
      refine ⟨h1.trans rfl, h2.trans rfl, h3.trans ?_⟩
      simp only [List.length_append, List.length_cons, List.length_nil]
      omega

/-- The shape of `send_news_digest_core` on a digest with a nonempty item
list: the fallback branch is not taken, and the result is assembled from the
final loop state. -/
theorem send_news_digest_core_eq (bot chat content date : List Char)
    (repo : Option (List Char)) (branch : List Char)
    (conv : List Char → Option (List Char))
    (responses : Nat → List Char → List Char → ChanResp)
    (hne : (parse_news_content content).2 ≠ []) :
    send_news_digest_core bot chat content date repo branch conv responses =
      (let pr := parse_news_content content
       let github_url := repo.map (fun r =>
         build_github_file_url r branch ("news/".data ++ date ++ ".md".data))
       let ovMsg := truncate_message (convert_markdown_to_telegram conv
         (format_overview_message pr.1 date github_url)) MAX_MESSAGE_LENGTH
       let r0 := send_message bot chat ovMsg mdv2 true responses 0
       let st0 : DigestAcc :=
         if r0.1.success then ⟨1, r0.1.message_id, [], r0.2⟩
         else ⟨0, none, ["Overview: ".data ++ r0.1.error.getD []], r0.2⟩
       let st := send_items_loop bot chat conv responses pr.2.length pr.2 1 st0
       if st.messages_sent = 0 then
         (⟨false, none, 0,
           some (if st.errors.isEmpty then "No messages sent".data
                 else List.intercalate "; ".data st.errors)⟩, st)
       else
         (⟨true, st.first_message_id, st.messages_sent,
           if st.errors.isEmpty then none
           else some (natStr st.errors.length ++ " 則訊息發送失敗".data)⟩, st)) := by
  simp only [send_news_digest_core]
  rw [if_neg hne]

/-- The final result assembly of `send_news_digest` from the loop state:
success iff at least one unit was sent, and the reported count is the
state's count. -/
theorem digest_result_shape (st : DigestAcc) :
    ((if st.messages_sent = 0 then
        ((⟨false, none, 0,
           some (if st.errors.isEmpty then "No messages sent".data
                 else List.intercalate "; ".data st.errors)⟩ : TelegramResult), st)
      else
        (⟨true, st.first_message_id, st.messages_sent,
          if st.errors.isEmpty then none
          else some (natStr st.errors.length ++ " 則訊息發送失敗".data)⟩,
         st)).1.success = true ↔
      0 < (if st.messages_sent = 0 then
        ((⟨false, none, 0,
           some (if st.errors.isEmpty then "No messages sent".data
                 else List.intercalate "; ".data st.errors)⟩ : TelegramResult), st)
      else
        (⟨true, st.first_message_id, st.messages_sent,
          if st.errors.isEmpty then none
          else some (natStr st.errors.length ++ " 則訊息發送失敗".data)⟩,
         st)).2.messages_sent) ∧
    (if st.messages_sent = 0 then
        ((⟨false, none, 0,
           some (if st.errors.isEmpty then "No messages sent".data
                 else List.intercalate "; ".data st.errors)⟩ : TelegramResult), st)
      else
        (⟨true, st.first_message_id, st.messages_sent,
          if st.errors.isEmpty then none
          else some (natStr st.errors.length ++ " 則訊息發送失敗".data)⟩,
         st)).1.messages_sent =
      (if st.messages_sent = 0 then
        ((⟨false, none, 0,
           some (if st.errors.isEmpty then "No messages sent".data
                 else List.intercalate "; ".data st.errors)⟩ : TelegramResult), st)
      else
        (⟨true, st.first_message_id, st.messages_sent,
          if st.errors.isEmpty then none
          else some (natStr st.errors.length ++ " 則訊息發送失敗".data)⟩,
         st)).2.messages_sent := by
  by_cases h0 : st.messages_sent = 0
  · simp [h0]
  · simp [h0, Nat.pos_of_ne_zero h0]

/-- Claim C2 (amended): for every delivery batch whose parsed item list is
nonempty (and with credentials present), the aggregate result of
`send_news_digest` satisfies: overall success holds iff at least one unit was
sent; all sends succeeding yields success with `messages_sent = 1 + #items`,
no recorded failures, and `message_id` the id of the first (overview) send;
all sends failing yields failure with `messages_sent = 0`; the summary
failing while all items succeed still yields success, with exactly one
recorded failure carrying the "Overview" label and `message_id` the id of
the first item send (the first unit that succeeded). -/
theorem digest_delivery_aggregate (bot chat content date : List Char)
    (repo : Option (List Char)) (branch : List Char)
    (conv : List Char → Option (List Char))
    (responses : Nat → List Char → List Char → ChanResp)
    (hb : bot ≠ []) (hc : chat ≠ [])
    (hne : (parse_news_content content).2 ≠ []) :
    ((send_news_digest_core bot chat content date repo branch conv responses).1.success
        = true ↔
      0 < (send_news_digest_core bot chat content date repo branch conv
        responses).2.messages_sent) ∧
    ((send_news_digest_core bot chat content date repo branch conv
        responses).1.messages_sent =
      (send_news_digest_core bot chat content date repo branch conv
        responses).2.messages_sent) ∧
    (∀ ids : Nat → Nat, (∀ n t pm, responses n t pm = ChanResp.ok (ids n)) →
      (send_news_digest_core bot chat content date repo branch conv responses).1 =
        ⟨true, some (ids 0), 1 + (parse_news_content content).2.length, none⟩ ∧
      (send_news_digest_core bot chat content date repo branch conv
        responses).2.errors = []) ∧
    ((∀ n t pm, (responses n t pm).isOk = false) →
      (send_news_digest_core bot chat content date repo branch conv
        responses).1.success = false ∧
      (send_news_digest_core bot chat content date repo branch conv
        responses).1.messages_sent = 0) ∧
    (∀ (d : List Char) (ids : Nat → Nat),
      (∀ t pm, responses 0 t pm = ChanResp.exn d) →
      (∀ n t pm, 1 ≤ n → responses n t pm = ChanResp.ok (ids n)) →
      (send_news_digest_core bot chat content date repo branch conv
        responses).1.success = true ∧
      (send_news_digest_core bot chat content date repo branch conv
        responses).2.errors = ["Overview: ".data ++ d] ∧
      (send_news_digest_core bot chat content date repo branch conv
        responses).1.message_id = some (ids 1)) := by
  have hcore := send_news_digest_core_eq bot chat content date repo branch conv
    responses hne
  refine ⟨?_, ?_, ?_, ?_, ?_⟩
  · rw [hcore]
    exact (digest_result_shape _).1
  · rw [hcore]
    exact (digest_result_shape _).2
  · intro ids hok
    rw [hcore]
    simp only []
    rw [send_message_ok bot chat _ mdv2 true responses 0 hb hc (ids 0) (hok 0 _ _)]
    simp only [if_true]
    rw [send_items_loop_ok_some bot chat conv responses
      (parse_news_content content).2.length hb hc ids (parse_news_content content).2 1
      ⟨1, some (ids 0), [], 1⟩ (ids 0) rfl (fun n t pm _ => hok n t pm)]
    simp
  · intro hfail
    rw [hcore]
    simp only []
    have hfl := send_message_fail bot chat
      (truncate_message (convert_markdown_to_telegram conv
        (format_overview_message (parse_news_content content).1 date
          (repo.map (fun r => build_github_file_url r branch
            ("news/".data ++ date ++ ".md".data))))) MAX_MESSAGE_LENGTH)
      mdv2 true responses 0 hb hc (hfail _ _ _) (hfail _ _ _)
    simp only [hfl, Bool.false_eq_true, if_false]
    obtain ⟨h1, h2, h3⟩ := send_items_loop_all_fail bot chat conv responses
      (parse_news_content content).2.length hb hc hfail (parse_news_content content).2 1
      ⟨0, none, ["Overview: ".data ++ (send_message bot chat
        (truncate_message (convert_markdown_to_telegram conv
          (format_overview_message (parse_news_content content).1 date
            (repo.map (fun r => build_github_file_url r branch
              ("news/".data ++ date ++ ".md".data))))) MAX_MESSAGE_LENGTH)
        mdv2 true responses 0).1.error.getD []],
       (send_message bot chat (truncate_message (convert_markdown_to_telegram conv
        (format_overview_message (parse_news_content content).1 date
          (repo.map (fun r => build_github_file_url r branch
            ("news/".data ++ date ++ ".md".data))))) MAX_MESSAGE_LENGTH)
        mdv2 true responses 0).2⟩
    rw [if_pos (h1.trans rfl)]
    exact ⟨rfl, rfl⟩
  · intro d ids h0 hok
    rw [hcore]
    simp only []
    rw [send_message_exn bot chat _ mdv2 true responses 0 hb hc d (h0 _ _)]
    simp only [Bool.false_eq_true, if_false]
    cases hpr : (parse_news_content content).2 with
    | nil => exact absurd hpr hne
    | cons item rest =>
        rw [send_items_loop_ok_none bot chat conv responses (item :: rest).length hb hc ids
          item rest 1 ⟨0, none, ["Overview: ".data ++ (some d).getD []], 0 + 1⟩ rfl
          (fun n t pm hn => hok n t pm hn)]
        simp

theorem digest_delivery_aggregate_witness :
    (send_news_digest_core "t".data "c".data
        "Intro text\n---\n### 1. Title A\n來源: X\n🔗 link\n---\n### 2. Title B\n來源: Y\n🔗 link".data
        "2026-01-01".data none "main".data (fun t => some t)
        (fun n _ _ => ChanResp.ok (n + 10))).1 =
      ⟨true, some 10,
       1 + (parse_news_content
         "Intro text\n---\n### 1. Title A\n來源: X\n🔗 link\n---\n### 2. Title B\n來源: Y\n🔗 link".data).2.length,
       none⟩ :=
  ((digest_delivery_aggregate "t".data "c".data
      "Intro text\n---\n### 1. Title A\n來源: X\n🔗 link\n---\n### 2. Title B\n來源: Y\n🔗 link".data
      "2026-01-01".data none "main".data (fun t => some t)
      (fun n _ _ => ChanResp.ok (n + 10)) (by decide) (by decide) (by decide)).2.2.1
    (fun n => n + 10) (fun n t pm => rfl)).1

/-! ## Segmentation as a partition (claim C6) -/

theorem takeWhile_dropWhile_length (p : Char → Bool) (l : List Char) :
    (l.takeWhile p).length + (l.dropWhile p).length = l.length := by
  conv_rhs => rw [← List.takeWhile_append_dropWhile p l]
  rw [List.length_append]

theorem sepMatchN_bounds (s : List Char) (n : Nat) (h : sepMatchN s = some n) :
    2 ≤ n ∧ n ≤ s.length := by
  unfold sepMatchN at h
  split at h
  · simp only [] at h
    split at h
    · rename_i hhead hcond
      injection h with h
      subst h
      have hsum := takeWhile_dropWhile_length (fun c => c == '-') s.tail
      have hne : (s.tail.dropWhile (fun c => c == '-')) ≠ [] := by
        intro hnil
        rw [hnil] at hcond
        simp at hcond
      have h1 : 1 ≤ (s.tail.dropWhile (fun c => c == '-')).length := by
        cases hd : s.tail.dropWhile (fun c => c == '-') with
        | nil => exact absurd hd hne
        | cons a l => simp
      have hs : s ≠ [] := by
        intro hnil
        rw [hnil] at hhead
        simp at hhead
      have hlen : s.tail.length + 1 = s.length := by
        cases s with
        | nil => exact absurd rfl hs
        | cons a l => simp
      constructor
      · omega
      · omega
    · cases h
  · cases h

theorem splitSepGo_reconstruct :
    ∀ (fuel : Nat) (acc s : List Char), s.length ≤ fuel →
      interleaveSep (splitSepGo fuel acc s) = acc.reverse ++ s := by
  intro fuel
  induction fuel with
  | zero =>
      intro acc s hs
      have hnil : s = [] := List.eq_nil_of_length_eq_zero (Nat.le_zero.mp hs)
      subst hnil
      simp [splitSepGo, interleaveSep]
  | succ fuel ih =>
      intro acc s hs
      cases s with
      | nil => simp [splitSepGo, interleaveSep]
      | cons c cs =>
          rw [splitSepGo]
          cases hm : sepMatchN (c :: cs) with
          | some n =>
              obtain ⟨h2, hlen⟩ := sepMatchN_bounds _ _ hm
              have hfb : ((c :: cs).drop n).length ≤ fuel := by
                simp only [List.length_drop, List.length_cons]
                simp only [List.length_cons] at hlen hs
                omega
              have hrec := ih [] ((c :: cs).drop n) hfb
              simp only [interleaveSep, hrec, List.reverse_nil, List.nil_append]
              rw [List.append_assoc, List.take_append_drop]
          | none =>
              have hcs : cs.length ≤ fuel := by
                simp only [List.length_cons] at hs
                omega
              rw [ih (c :: acc) cs hcs]
              simp

/-- Claim C6 (amended): segmentation is a partition up to per-piece
whitespace trimming — the separator split's pieces, interleaved with the
recorded separators, reproduce the input exactly; the classified overview
parts followed by the item parts are exactly the retained sections in order;
every returned item is nonempty; the empty digest yields an empty summary
and zero items. -/
theorem segmentation_partition :
    (∀ s : List Char, interleaveSep (splitSepGo s.length [] s) = s) ∧
    (∀ sections : List (List Char),
      (classifySections sections).1 ++ (classifySections sections).2 = sections) ∧
    (∀ content x, x ∈ (parse_news_content content).2 → x ≠ []) ∧
    parse_news_content [] = ([], []) := by
  refine ⟨?_, ?_, ?_, by decide⟩
  · intro s
    exact splitSepGo_reconstruct s.length [] s (Nat.le_refl _)
  · intro sections
    simp only [classifySections, classifyGo_false_eq, List.reverse_nil, List.nil_append]
    exact List.takeWhile_append_dropWhile (fun s => !is_news_item s) sections
  · intro content x hx
    simp only [parse_news_content] at hx
    split at hx
    · split at hx
      · rw [List.mem_filter] at hx
        intro hnil
        rw [hnil] at hx
        simp at hx
      · simp at hx
    · simp only [classifySections, classifyGo_false_eq, List.reverse_nil,
        List.nil_append] at hx
      have hmem : x ∈ sectionsOf (reSubHeader content) :=
        (List.dropWhile_suffix (fun s => !is_news_item s)).subset hx
      simp only [sectionsOf, List.mem_filter] at hmem
      intro hnil
      rw [hnil] at hmem
      simp at hmem

theorem segmentation_partition_witness :
    ("### T\n來源:x\n🔗 l".data : List Char) ≠ [] :=
  segmentation_partition.2.2.1 "Intro \n---\n### T\n來源:x\n🔗 l".data
    "### T\n來源:x\n🔗 l".data (by decide)

/-! ## Round-trip with the file writer (claim C9)

The file writer appends a trailing newline after the digest; the lemmas below
show that segmentation is stable under that trailing newline provided the
digest does not end in a newline followed by three-or-more dashes (the only
shape whose completion creates a new separator match). -/

theorem endsWithSep_suffix_mono (s t : List Char) (hst : s <:+ t)
    (h : EndsWithSep s) : EndsWithSep t := by
  obtain ⟨u, n, h3, rfl⟩ := h
  obtain ⟨v, rfl⟩ := hst
  exact ⟨v ++ u, n, h3, by simp [List.append_assoc]⟩

theorem endsWithSep_of_all_dashes (cs : List Char)
    (hall : cs.all (fun c => c == '-') = true) (h3 : 3 ≤ cs.length) :
    EndsWithSep ('\n' :: cs) := by
  refine ⟨[], cs.length, h3, ?_⟩
  have : cs = List.replicate cs.length '-' := by
    rw [List.eq_replicate_iff]
    refine ⟨rfl, fun b hb => ?_⟩
    have := List.all_eq_true.mp hall b hb
    simpa using this
  simp [← this]

theorem endsWithSepB_of_endsWithSep (x : List Char) (h : EndsWithSep x) :
    endsWithSepB x = true := by
  obtain ⟨u, n, h3, rfl⟩ := h
  unfold endsWithSepB
  simp only []
  have hrev : (u ++ '\n' :: List.replicate n '-').reverse =
      List.replicate n '-' ++ ('\n' :: u.reverse) := by
    simp [List.reverse_append, List.reverse_cons, List.append_assoc]
  have hall : (List.replicate n '-').all (fun c => c == '-') = true := by
    simp [List.all_eq_true]
  rw [hrev, takeWhile_append_eq, dropWhile_append_eq, if_pos hall, if_pos hall]
  simp [List.takeWhile_cons, List.dropWhile_cons]
  omega

theorem sepMatchN_append_nl (c : Char) (cs : List Char)
    (h : ¬ EndsWithSep (c :: cs)) :
    sepMatchN (c :: (cs ++ ['\n'])) = sepMatchN (c :: cs) := by
  by_cases hc : c = '\n'
  · subst hc
    unfold sepMatchN
    simp only [List.head?_cons, List.tail_cons, if_pos rfl]
    by_cases hall : cs.all (fun c => c == '-')
    · have h3 : ¬ (3 ≤ cs.length) := fun h3 => h (endsWithSep_of_all_dashes cs hall h3)
      have hdw : cs.dropWhile (fun c => c == '-') = [] :=
        List.dropWhile_eq_nil_iff.mpr (fun x hx => List.all_eq_true.mp hall x hx)
      have htw : cs.takeWhile (fun c => c == '-') = cs := by
        conv_rhs => rw [← List.takeWhile_append_dropWhile (fun c => c == '-') cs]
        rw [hdw, List.append_nil]
      simp only [takeWhile_append_eq, dropWhile_append_eq, hall, if_true, htw, hdw]
      simp [List.takeWhile_cons, List.dropWhile_cons, h3]
    · have hdw : cs.dropWhile (fun c => c == '-') ≠ [] := by
        intro hnil
        exact hall (List.all_eq_true.mpr (List.dropWhile_eq_nil_iff.mp hnil))
      have hallf : cs.all (fun c => c == '-') = false := by
        cases hv : cs.all (fun c => c == '-')
        · rfl
        · exact absurd hv hall
      simp only [takeWhile_append_eq, dropWhile_append_eq, hallf, Bool.false_eq_true,
        if_false]
      rw [head?_append_of_ne_nil _ _ hdw]
  · unfold sepMatchN
    have h1 : (c :: (cs ++ ['\n'])).head? = some c := rfl
    have h2 : (c :: cs).head? = some c := rfl
    rw [h1, h2, if_neg (by simpa using hc), if_neg (by simpa using hc)]

theorem splitSepGo_fst_ne_nil :
    ∀ (fuel : Nat) (acc s : List Char), (splitSepGo fuel acc s).1 ≠ [] := by
  intro fuel
  induction fuel with
  | zero => intro acc s; simp [splitSepGo]
  | succ fuel ih =>
      intro acc s
      cases s with
      | nil => simp [splitSepGo]
      | cons c cs =>
          rw [splitSepGo]
          cases hm : sepMatchN (c :: cs) with
          | some n => simp
          | none => exact ih (c :: acc) cs

theorem mapLast_cons_of_ne_nil (f : List Char → List Char) (a : List Char)
    (l : List (List Char)) (h : l ≠ []) :
    mapLast f (a :: l) = a :: mapLast f l := by
  cases l with
  | nil => exact absurd rfl h
  | cons b r => rfl

theorem splitSepGo_append_nl :
    ∀ (fuel : Nat) (acc x : List Char), x.length ≤ fuel → ¬ EndsWithSep x →
      (splitSepGo (fuel + 1) acc (x ++ ['\n'])).1 =
        mapLast (· ++ ['\n']) ((splitSepGo fuel acc x).1) := by
  intro fuel
  induction fuel with
  | zero =>
      intro acc x hx _
      have hnil : x = [] := List.eq_nil_of_length_eq_zero (Nat.le_zero.mp hx)
      subst hnil
      simp [splitSepGo, sepMatchN, mapLast]
  | succ fuel ih =>
      intro acc x hx hsep
      cases x with
      | nil => simp [splitSepGo, sepMatchN, mapLast]
      | cons c cs =>
          simp only [List.cons_append]
          rw [splitSepGo, splitSepGo, sepMatchN_append_nl c cs hsep]
          cases hm : sepMatchN (c :: cs) with
          | some n =>
              obtain ⟨h2, hlen⟩ := sepMatchN_bounds _ _ hm
              simp only []
              have hdrop : (c :: (cs ++ ['\n'])).drop n = (c :: cs).drop n ++ ['\n'] := by
                rw [← List.cons_append]
                exact List.drop_append_of_le_length hlen
              have hfb : ((c :: cs).drop n).length ≤ fuel := by
                simp only [List.length_drop, List.length_cons]
                simp only [List.length_cons] at hlen hx
                omega
              have hrec := ih [] ((c :: cs).drop n) hfb
                (fun he => hsep (endsWithSep_suffix_mono _ _ (List.drop_suffix n (c :: cs)) he))
              rw [hdrop, hrec,
                mapLast_cons_of_ne_nil _ _ _ (splitSepGo_fst_ne_nil fuel [] ((c :: cs).drop n))]
          | none =>
              have hcs : cs.length ≤ fuel := by
                simp only [List.length_cons] at hx
                omega
              exact ih (c :: acc) cs hcs
                (fun he => hsep (endsWithSep_suffix_mono _ _ ⟨[c], rfl⟩ he))

theorem splitSep_append_nl (x : List Char) (hsep : ¬ EndsWithSep x) :
    splitSep (x ++ ['\n']) = mapLast (· ++ ['\n']) (splitSep x) := by
  unfold splitSep
  have hlen : (x ++ ['\n']).length = x.length + 1 := by simp
  rw [hlen]
  exact splitSepGo_append_nl x.length [] x (Nat.le_refl _) hsep

theorem pyStrip_append_nl (x : List Char) : pyStrip (x ++ ['\n']) = pyStrip x := by
  unfold pyStrip
  rw [dropWhile_append_eq]
  by_cases hall : x.all isPyWs
  · rw [if_pos hall]
    have hdw : x.dropWhile isPyWs = [] :=
      List.dropWhile_eq_nil_iff.mpr (fun c hc => List.all_eq_true.mp hall c hc)
    rw [hdw]
    simp [List.dropWhile_cons, isPyWs]
  · rw [if_neg hall]
    have hdw : x.dropWhile isPyWs ≠ [] := by
      intro hnil
      exact hall (List.all_eq_true.mpr (List.dropWhile_eq_nil_iff.mp hnil))
    rw [List.reverse_append]
    have : (['\n'] : List Char).reverse = ['\n'] := rfl
    rw [this]
    have hnl : isPyWs '\n' = true := rfl
    simp [List.dropWhile_cons, hnl]

theorem numPunct_append_nl (y : List Char) : numPunct (y ++ ['\n']) = numPunct y := by
  unfold numPunct
  simp only []
  rw [dropWhile_append_eq]
  by_cases hall : y.all Char.isDigit
  · rw [if_pos hall]
    have hdw : y.dropWhile Char.isDigit = [] :=
      List.dropWhile_eq_nil_iff.mpr (fun c hc => List.all_eq_true.mp hall c hc)
    have hnd : Char.isDigit '\n' = false := rfl
    rw [hdw]
    simp [List.dropWhile_cons, hnd]
  · rw [if_neg hall]
    have hdw : y.dropWhile Char.isDigit ≠ [] := by
      intro hnil
      exact hall (List.all_eq_true.mpr (List.dropWhile_eq_nil_iff.mp hnil))
    rw [head?_append_of_ne_nil _ _ hdw]
    congr 1
    simp only [List.length_append, List.length_cons, List.length_nil]
    rw [decide_eq_decide]
    omega

theorem headNum_append_nl (y : List Char) : headNum (y ++ ['\n']) = headNum y := by
  unfold headNum
  simp only []
  rw [takeWhile_append_eq, dropWhile_append_eq]
  by_cases hall : y.all (fun c => c == '#')
  · rw [if_pos hall, if_pos hall]
    have htwnl : (['\n'] : List Char).takeWhile (fun c => c == '#') = [] := rfl
    have hdwnl : (['\n'] : List Char).dropWhile (fun c => c == '#') = ['\n'] := rfl
    have hdw : y.dropWhile (fun c => c == '#') = [] :=
      List.dropWhile_eq_nil_iff.mpr (fun c hc => List.all_eq_true.mp hall c hc)
    have htw : y.takeWhile (fun c => c == '#') = y := by
      conv_rhs => rw [← List.takeWhile_append_dropWhile (fun c => c == '#') y]
      rw [hdw, List.append_nil]
    rw [htwnl, hdwnl, hdw, htw, List.append_nil]
    by_cases h0 : y = []
    · subst h0
      decide
    · have h0' : (y.length == 0) = false := by
        simp only [beq_eq_false_iff_ne, ne_eq]
        intro hz
        exact h0 (List.eq_nil_of_length_eq_zero hz)
      rw [h0']
      simp only [Bool.false_eq_true, if_false]
      have hnlw : (['\n'] : List Char).dropWhile isPyWs = [] := rfl
      have hnlw0 : ([] : List Char).dropWhile isPyWs = [] := rfl
      rw [hnlw, hnlw0]
  · rw [if_neg hall, if_neg hall, dropWhile_append_eq]
    by_cases hall2 : (y.dropWhile (fun c => c == '#')).all isPyWs
    · rw [if_pos hall2]
      have hdw2 : (y.dropWhile (fun c => c == '#')).dropWhile isPyWs = [] :=
        List.dropWhile_eq_nil_iff.mpr (fun c hc => List.all_eq_true.mp hall2 c hc)
      have hnlw : (['\n'] : List Char).dropWhile isPyWs = [] := rfl
      rw [hdw2, hnlw, numPunct_append_nl]
    · rw [if_neg hall2]
      simp only [numPunct_append_nl]

theorem numSplitGo_ne_nil : ∀ (s acc : List Char), numSplitGo acc s ≠ [] := by
  intro s
  induction s with
  | nil => intro acc; simp [numSplitGo]
  | cons c cs ih =>
      intro acc
      rw [numSplitGo]
      split
      · simp
      · exact ih (c :: acc)

theorem numSplitGo_append_nl :
    ∀ (s acc : List Char), numSplitGo acc (s ++ ['\n']) =
      mapLast (· ++ ['\n']) (numSplitGo acc s) := by
  intro s
  induction s with
  | nil =>
      intro acc
      have hhn : headNum ([] : List Char) = false := rfl
      simp [numSplitGo, hhn, mapLast]
  | cons c cs ih =>
      intro acc
      simp only [List.cons_append]
      rw [numSplitGo, numSplitGo, headNum_append_nl]
      by_cases hcond : (c == '\n' && headNum cs) = true
      · rw [if_pos hcond, if_pos hcond, ih ['\n'],
          mapLast_cons_of_ne_nil _ _ _ (numSplitGo_ne_nil cs ['\n'])]
      · rw [if_neg hcond, if_neg hcond]
        exact ih (c :: acc)

theorem numSplit_append_nl (s : List Char) :
    numSplit (s ++ ['\n']) = mapLast (· ++ ['\n']) (numSplit s) := by
  unfold numSplit
  rw [headNum_append_nl]
  by_cases hh : headNum s = true
  · rw [if_pos hh, if_pos hh, numSplitGo_append_nl,
      mapLast_cons_of_ne_nil _ _ _ (numSplitGo_ne_nil s [])]
  · rw [if_neg hh, if_neg hh, numSplitGo_append_nl]

theorem mapLast_length (f : List Char → List Char) :
    ∀ l : List (List Char), (mapLast f l).length = l.length := by
  intro l
  induction l with
  | nil => rfl
  | cons a rest ih =>
      cases rest with
      | nil => rfl
      | cons b r =>
          simp only [mapLast, List.length_cons]
          rw [ih]
          simp

theorem mapLast_map_pyStrip :
    ∀ l : List (List Char), (mapLast (· ++ ['\n']) l).map pyStrip = l.map pyStrip := by
  intro l
  induction l with
  | nil => rfl
  | cons a rest ih =>
      cases rest with
      | nil => simp [mapLast, pyStrip_append_nl]
      | cons b r =>
          rw [mapLast_cons_of_ne_nil _ _ _ (by simp : (b :: r : List (List Char)) ≠ [])]
          simp only [List.map_cons]
          rw [ih]
          simp

theorem sectionsOf_append_nl (x : List Char) (hsep : ¬ EndsWithSep x) :
    sectionsOf (x ++ ['\n']) = sectionsOf x := by
  unfold sectionsOf
  rw [splitSep_append_nl x hsep, mapLast_map_pyStrip]

theorem mapLast_headD (f : List Char → List Char) (l : List (List Char))
    (h : 2 ≤ l.length) : (mapLast f l).headD [] = l.headD [] := by
  cases l with
  | nil => simp at h
  | cons a rest =>
      cases rest with
      | nil => simp at h
      | cons b r => rfl

theorem mapLast_tail (f : List Char → List Char) (l : List (List Char))
    (h : 2 ≤ l.length) : (mapLast f l).tail = mapLast f l.tail := by
  cases l with
  | nil => simp at h
  | cons a rest =>
      cases rest with
      | nil => simp at h
      | cons b r => rfl

/-- Segmentation is stable under the trailing newline the file writer
appends, provided the header `re.sub` is a no-op on both texts and the
digest does not end in a newline-plus-dashes run. -/
theorem parse_append_nl (x : List Char)
    (hx : reSubHeader x = x) (hx2 : reSubHeader (x ++ ['\n']) = x ++ ['\n'])
    (hsep : ¬ EndsWithSep x) :
    parse_news_content (x ++ ['\n']) = parse_news_content x := by
  unfold parse_news_content
  rw [hx, hx2]
  simp only []
  rw [sectionsOf_append_nl x hsep]
  by_cases hlen : (sectionsOf x).length ≤ 1
  · rw [if_pos hlen, if_pos hlen, numSplit_append_nl]
    by_cases hp : 1 < (numSplit x).length
    · have hp' : 1 < (mapLast (· ++ ['\n']) (numSplit x)).length := by
        rw [mapLast_length]; exact hp
      rw [if_pos hp', if_pos hp,
        mapLast_headD _ _ (by omega), mapLast_tail _ _ (by omega), mapLast_map_pyStrip]
    · have hp' : ¬ 1 < (mapLast (· ++ ['\n']) (numSplit x)).length := by
        rw [mapLast_length]; exact hp
      rw [if_neg hp', if_neg hp, pyStrip_append_nl]
  · rw [if_neg hlen, if_neg hlen]

theorem cleanScan_reSubGo :
    ∀ (fuel : Nat) (b : Bool) (s : List Char), s.length ≤ fuel →
      cleanScan b s = true → reSubGo fuel b s = s := by
  intro fuel
  induction fuel with
  | zero => intro b s _ _; rfl
  | succ fuel ih =>
      intro b s hlen hcl
      cases s with
      | nil => rfl
      | cons c cs =>
          rw [cleanScan] at hcl
          rw [Bool.and_eq_true] at hcl
          have hguard : (b && hdLit.isPrefixOf (c :: cs)) = false := by
            have := hcl.1
            cases hv : (b && hdLit.isPrefixOf (c :: cs))
            · rfl
            · rw [hv] at this; simp at this
          rw [reSubGo, if_neg (by rw [hguard]; simp)]
          have hcs : cs.length ≤ fuel := by
            simp only [List.length_cons] at hlen
            omega
          rw [ih (c == '\n') cs hcs hcl.2]

theorem cleanScan_append_nl :
    ∀ (s : List Char) (b : Bool), cleanScan b (s ++ ['\n']) = cleanScan b s := by
  have hnl : '\n' ∉ hdLit := by decide
  intro s
  induction s with
  | nil =>
      intro b
      have hp : hdLit.isPrefixOf ['\n'] = false := by decide
      simp [cleanScan, hp]
  | cons c cs ih =>
      intro b
      simp only [List.cons_append, cleanScan, List.append_eq]
      rw [show (c :: (cs ++ ['\n'])) = ((c :: cs) ++ ['\n']) from rfl,
        isPrefixOf_append_one hdLit (c :: cs) '\n' hnl, ih (c == '\n')]

/-- A literal step of the header matcher on its exact literal. -/
theorem expectLitR_self (lit r : List Char) : expectLitR lit (lit ++ r) = some r := by
  unfold expectLitR
  rw [if_pos (List.isPrefixOf_iff_prefix.mpr (List.prefix_append lit r))]
  rw [List.drop_left]

/-- The digits step of the header matcher on an exact digit block. -/
theorem expectDigitsR_exact (n : Nat) (d r : List Char) (hlen : d.length = n)
    (hd : d.all Char.isDigit = true) : expectDigitsR n (d ++ r) = some r := by
  unfold expectDigitsR
  have h1 : n ≤ (d ++ r).length := by simp [← hlen]
  have h2 : (d ++ r).take n = d := by
    rw [← hlen, List.take_left]
  rw [if_pos (by rw [h2]; simp only [hd, Bool.and_true]; simp; omega)]
  rw [← hlen, List.drop_left]

/-- The `\s*\n+` step on an exact whitespace block ending in a newline,
followed by a non-whitespace character. -/
theorem wsThenNlR_exact (w r : List Char) (hall : w.all isPyWs = true)
    (hne : w ≠ []) (hlast : w.getLast? = some '\n')
    (hr : ∀ ch, r.head? = some ch → isPyWs ch = false) :
    wsThenNlR (w ++ r) = some r := by
  unfold wsThenNlR
  have htwr : r.takeWhile isPyWs = [] := by
    cases r with
    | nil => rfl
    | cons ch r' => simp [List.takeWhile_cons, hr ch rfl]
  have hdwr : r.dropWhile isPyWs = r := by
    cases r with
    | nil => rfl
    | cons ch r' => simp [List.dropWhile_cons, hr ch rfl]
  have hie : w.isEmpty = false := by
    cases w with
    | nil => exact absurd rfl hne
    | cons a l => rfl
  rw [takeWhile_append_eq, dropWhile_append_eq, if_pos hall, if_pos hall, htwr,
    List.append_nil, hdwr]
  simp only []
  rw [if_pos (by rw [hie, hlast]; simp)]

/-- The header pattern matches the exact header produced by
`save_news_to_file` (after its title literal) and consumes everything up to,
but not including, the saved digest, ending just after a newline. -/
theorem headerMatchAfterTitle_generated (y1 y2 y3 y4 m1 m2 d1 d2 : Char)
    (ts rest : List Char)
    (hy1 : y1.isDigit = true) (hy2 : y2.isDigit = true) (hy3 : y3.isDigit = true)
    (hy4 : y4.isDigit = true) (hm1 : m1.isDigit = true) (hm2 : m2.isDigit = true)
    (hd1 : d1.isDigit = true) (hd2 : d2.isDigit = true)
    (hts : '\n' ∉ ts) (hr : rest.head? ≠ some '\n') :
    headerMatchAfterTitle
        ([y1, y2, y3, y4, '-', m1, m2, '-', d1, d2] ++ "\n\n> Generated on ".data
          ++ ts ++ "\n\n---\n\n".data ++ rest) =
      some (true, 34 + ts.length) := by
  have hA : "\n\n> Generated on ".data =
      ['\n', '\n', '>', ' '] ++ (genLit ++ [' ']) := by decide
  have hB : "\n\n---\n\n".data = ['\n', '\n'] ++ ("---".data ++ ['\n', '\n']) := by decide
  unfold headerMatchAfterTitle
  simp only [hA, hB, List.append_assoc, List.cons_append, List.nil_append]
  have h1 : ∀ R : List Char, expectDigitsR 4 (y1 :: y2 :: y3 :: y4 :: R) = some R := by
    intro R
    simpa using expectDigitsR_exact 4 [y1, y2, y3, y4] R rfl (by simp [hy1, hy2, hy3, hy4])
  have h2 : ∀ (c : Char) (R : List Char), expectLitR [c] (c :: R) = some R := by
    intro c R
    simpa using expectLitR_self [c] R
  have h3 : ∀ R : List Char, expectDigitsR 2 (m1 :: m2 :: R) = some R := by
    intro R
    simpa using expectDigitsR_exact 2 [m1, m2] R rfl (by simp [hm1, hm2])
  have h4 : ∀ R : List Char, expectDigitsR 2 (d1 :: d2 :: R) = some R := by
    intro R
    simpa using expectDigitsR_exact 2 [d1, d2] R rfl (by simp [hd1, hd2])
  have h5 : ∀ R : List Char, (∀ ch, R.head? = some ch → isPyWs ch = false) →
      wsThenNlR ('\n' :: '\n' :: R) = some R := by
    intro R hR
    simpa using wsThenNlR_exact ['\n', '\n'] R (by decide) (by decide) (by decide) hR
  rw [h1]
  simp only [Option.some_bind]
  rw [h2]
  simp only [Option.some_bind]
  rw [h3]
  simp only [Option.some_bind]
  rw [h2]
  simp only [Option.some_bind]
  rw [h4]
  simp only [Option.some_bind]
  rw [h5 _ (fun ch hch => by cases hch; rfl)]
  simp only [Option.some_bind]
  rw [h2]
  simp only [Option.some_bind]
  have hdw : List.dropWhile isPyWs (' ' :: 'G' :: 'e' :: 'n' :: 'e' :: 'r' :: 'a' :: 't' ::
      'e' :: 'd' :: ' ' :: 'o' :: 'n' :: ' ' ::
      (ts ++ '\n' :: '\n' :: '-' :: '-' :: '-' :: '\n' :: '\n' :: rest)) =
      'G' :: 'e' :: 'n' :: 'e' :: 'r' :: 'a' :: 't' :: 'e' :: 'd' :: ' ' :: 'o' :: 'n' :: ' ' ::
      (ts ++ '\n' :: '\n' :: '-' :: '-' :: '-' :: '\n' :: '\n' :: rest) := by
    rw [List.dropWhile_cons]
    simp only [show isPyWs ' ' = true from rfl, if_true]
    rw [List.dropWhile_cons]
    simp only [show isPyWs 'G' = false from rfl, Bool.false_eq_true, if_false]
  rw [hdw]
  have hgen : ∀ R : List Char,
      expectLitR genLit ('G' :: 'e' :: 'n' :: 'e' :: 'r' :: 'a' :: 't' :: 'e' :: 'd' ::
        ' ' :: 'o' :: 'n' :: R) = some R := by
    intro R
    simpa [genLit] using expectLitR_self genLit R
  rw [hgen]
  simp only [Option.some_bind]
  have hallts : (' ' :: ts).all (fun c => !(c == '\n')) = true := by
    rw [List.all_cons]
    simp only [show ((' ' == '\n') : Bool) = false from rfl, Bool.not_false, Bool.true_and]
    rw [List.all_eq_true]
    intro c hc
    have hcn : c ≠ '\n' := fun h => hts (h ▸ hc)
    simp [hcn]
  have hline : lineThenNlR (' ' :: (ts ++ '\n' :: '\n' :: '-' :: '-' :: '-' :: '\n' :: '\n' :: rest)) =
      some ('-' :: '-' :: '-' :: '\n' :: '\n' :: rest) := by
    rw [show (' ' :: (ts ++ '\n' :: '\n' :: '-' :: '-' :: '-' :: '\n' :: '\n' :: rest)) =
      ((' ' :: ts) ++ ('\n' :: '\n' :: '-' :: '-' :: '-' :: '\n' :: '\n' :: rest)) from rfl]
    unfold lineThenNlR
    rw [dropWhile_append_eq, if_pos hallts]
    rw [List.dropWhile_cons]
    simp only [show ((!(('\n' == '\n') : Bool)) : Bool) = false from rfl, Bool.false_eq_true,
      if_false]
    simp only [List.isEmpty_cons, Bool.false_eq_true, if_false]
    rw [List.dropWhile_cons]
    simp only [show (('\n' == '\n') : Bool) = true from rfl, if_true]
    rw [List.dropWhile_cons]
    simp only [show (('\n' == '\n') : Bool) = true from rfl, if_true]
    rw [List.dropWhile_cons]
    simp only [show (('-' == '\n') : Bool) = false from rfl, Bool.false_eq_true, if_false]
  rw [hline]
  simp only [Option.some_bind]
  have h6 : ∀ R : List Char, expectLitR ['-', '-', '-'] ('-' :: '-' :: '-' :: R) = some R := by
    intro R
    simpa using expectLitR_self ['-', '-', '-'] R
  rw [h6]
  simp only [Option.some_bind]
  have hdrop2 : List.dropWhile (fun c => c == '\n') ('\n' :: '\n' :: rest) = rest := by
    rw [List.dropWhile_cons]
    simp only [show (('\n' == '\n') : Bool) = true from rfl, if_true]
    rw [List.dropWhile_cons]
    simp only [show (('\n' == '\n') : Bool) = true from rfl, if_true]
    cases hrt : rest with
    | nil => rfl
    | cons ch r2 =>
        rw [List.dropWhile_cons]
        have hch : (ch == '\n') = false := by
          have hne2 : ch ≠ '\n' := fun h => hr (by rw [hrt, h]; rfl)
          simp [hne2]
        simp [hch]
  rw [hdrop2]
  simp only [List.head?_cons, beq_self_eq_true, Option.some.injEq, Prod.mk.injEq, true_and]
  simp only [List.length_cons, List.length_append]
  omega

/-- One step of the header scan when the header pattern matches at a line
start: the whole match (title literal plus `k` further characters) is dropped
and the scan continues after it. -/
theorem reSubGo_match (fuel : Nat) (s : List Char) (b : Bool) (k : Nat)
    (hne : s ≠ []) (hpre : hdLit.isPrefixOf s = true)
    (hm : headerMatchAfterTitle (s.drop 15) = some (b, k)) :
    reSubGo (fuel + 1) true s = reSubGo fuel b (s.drop (15 + k)) := by
  cases s with
  | nil => exact absurd rfl hne
  | cons c cs =>
      rw [show (15 + k) = (14 + k) + 1 from by omega, List.drop_succ_cons]
      rw [reSubGo, if_pos (show (true && hdLit.isPrefixOf (c :: cs)) = true by rw [hpre]; rfl)]
      rw [hm]

/-- The header scan on the exact file content written by `save_news_to_file`
removes precisely the generated header, leaving the digest and the writer's
trailing newline, provided the digest is nonempty, does not itself start with
a newline, and contains no header-literal line start. -/
theorem reSubHeader_saved (raw ts : List Char) (y1 y2 y3 y4 m1 m2 d1 d2 : Char)
    (hy1 : y1.isDigit = true) (hy2 : y2.isDigit = true) (hy3 : y3.isDigit = true)
    (hy4 : y4.isDigit = true) (hm1 : m1.isDigit = true) (hm2 : m2.isDigit = true)
    (hd1 : d1.isDigit = true) (hd2 : d2.isDigit = true)
    (hts : '\n' ∉ ts) (hne : raw ≠ []) (hh : raw.head? ≠ some '\n')
    (hcl : cleanScan true raw = true) :
    reSubHeader (saved_file_content raw [y1, y2, y3, y4, '-', m1, m2, '-', d1, d2] ts)
      = raw ++ ['\n'] := by
  have hr : (raw ++ ['\n']).head? ≠ some '\n' := by
    cases raw with
    | nil => exact absurd rfl hne
    | cons a l =>
        simp only [List.cons_append, List.head?_cons]
        exact hh
  have hm := headerMatchAfterTitle_generated y1 y2 y3 y4 m1 m2 d1 d2 ts (raw ++ ['\n'])
    hy1 hy2 hy3 hy4 hm1 hm2 hd1 hd2 hts hr
  have hsaved : saved_file_content raw [y1, y2, y3, y4, '-', m1, m2, '-', d1, d2] ts
      = hdLit ++ ([y1, y2, y3, y4, '-', m1, m2, '-', d1, d2]
          ++ "\n\n> Generated on ".data ++ ts ++ "\n\n---\n\n".data ++ (raw ++ ['\n'])) := by
    simp [saved_file_content, news_file_header, hdLit, List.append_assoc]
  rw [hsaved, reSubHeader]
  have hlen : (hdLit ++ ([y1, y2, y3, y4, '-', m1, m2, '-', d1, d2]
      ++ "\n\n> Generated on ".data ++ ts ++ "\n\n---\n\n".data ++ (raw ++ ['\n']))).length
      = (([y1, y2, y3, y4, '-', m1, m2, '-', d1, d2]
          ++ "\n\n> Generated on ".data ++ ts ++ "\n\n---\n\n".data
          ++ (raw ++ ['\n'])).length + 14) + 1 := by
    rw [List.length_append, show hdLit.length = 15 from by decide]
    omega
  rw [hlen]
  have hdrop15 : (hdLit ++ ([y1, y2, y3, y4, '-', m1, m2, '-', d1, d2]
      ++ "\n\n> Generated on ".data ++ ts ++ "\n\n---\n\n".data ++ (raw ++ ['\n']))).drop 15
      = ([y1, y2, y3, y4, '-', m1, m2, '-', d1, d2]
          ++ "\n\n> Generated on ".data ++ ts ++ "\n\n---\n\n".data ++ (raw ++ ['\n'])) := by
    rw [show (15 : Nat) = hdLit.length from by decide, List.drop_left]
  have hprefix : hdLit.isPrefixOf (hdLit ++ ([y1, y2, y3, y4, '-', m1, m2, '-', d1, d2]
      ++ "\n\n> Generated on ".data ++ ts ++ "\n\n---\n\n".data ++ (raw ++ ['\n']))) = true :=
    List.isPrefixOf_iff_prefix.mpr (List.prefix_append _ _)
  have hmatch : headerMatchAfterTitle
      ((hdLit ++ ([y1, y2, y3, y4, '-', m1, m2, '-', d1, d2]
        ++ "\n\n> Generated on ".data ++ ts ++ "\n\n---\n\n".data ++ (raw ++ ['\n']))).drop 15)
      = some (true, 34 + ts.length) := by
    rw [hdrop15]
    exact hm
  rw [reSubGo_match _ _ true (34 + ts.length) (by simp [hdLit]) hprefix hmatch]
  have hdropall : (hdLit ++ ([y1, y2, y3, y4, '-', m1, m2, '-', d1, d2]
      ++ "\n\n> Generated on ".data ++ ts ++ "\n\n---\n\n".data
      ++ (raw ++ ['\n']))).drop (15 + (34 + ts.length)) = raw ++ ['\n'] := by
    rw [show 15 + (34 + ts.length) = hdLit.length + (34 + ts.length) from by
      rw [show hdLit.length = 15 from by decide]]
    rw [← List.drop_drop, List.drop_left]
    rw [show 34 + ts.length = ([y1, y2, y3, y4, '-', m1, m2, '-', d1, d2]
        ++ "\n\n> Generated on ".data ++ ts ++ "\n\n---\n\n".data).length from by
      rw [List.length_append, List.length_append, List.length_append]
      rw [show ([y1, y2, y3, y4, '-', m1, m2, '-', d1, d2] : List Char).length = 10 from rfl]
      rw [show "\n\n> Generated on ".data.length = 17 from by decide]
      rw [show "\n\n---\n\n".data.length = 7 from by decide]
      omega]
    rw [List.drop_left]
  rw [hdropall]
  exact cleanScan_reSubGo _ true (raw ++ ['\n'])
    (by
      simp only [List.length_append]
      omega)
    (by rw [cleanScan_append_nl]; exact hcl)

/-- C9 counterexample: the original round-trip claim fails.  For a raw digest
that begins with a newline, the header pattern of `parse_news_content`
greedily consumes that leading newline together with the generated header, so
the saved file written by `save_news_to_file` segments differently from the
raw digest (the first separator of the raw digest is lost). -/
theorem header_roundtrip_violated :
    parse_news_content (saved_file_content "\n---\nA\n---\n### T\n來源:x\n🔗 l".data
        "2026-01-01".data "2026-01-01 00:00:00".data) ≠
      parse_news_content "\n---\nA\n---\n### T\n來源:x\n🔗 l".data := by decide

/-- C9 (corrected): for every nonempty raw digest that does not start with a
newline, does not end in a newline followed by three or more dashes, and has
no line starting with the header literal, and for every `YYYY-MM-DD`-shaped
date and newline-free timestamp, the header prepended by `save_news_to_file`
is matched and removed by the header-stripping step of `parse_news_content`
(leaving only the writer's trailing newline), segmenting the saved file
agrees with segmenting the raw digest, and the stripping step is a no-op on
the raw digest itself. -/
theorem header_roundtrip (raw date ts : List Char)
    (hd : dateShaped date = true) (hts : '\n' ∉ ts)
    (hne : raw ≠ []) (hh : raw.head? ≠ some '\n')
    (hcl : cleanScan true raw = true) (hsepb : endsWithSepB raw = false) :
    reSubHeader (saved_file_content raw date ts) = raw ++ ['\n'] ∧
    parse_news_content (saved_file_content raw date ts) = parse_news_content raw ∧
    reSubHeader raw = raw := by
  rcases date with _ | ⟨y1, _ | ⟨y2, _ | ⟨y3, _ | ⟨y4, _ | ⟨c1, _ | ⟨m1, _ | ⟨m2, _ |
    ⟨c2, _ | ⟨d1, _ | ⟨d2, _ | ⟨e, l⟩⟩⟩⟩⟩⟩⟩⟩⟩⟩⟩ <;> try exact Bool.noConfusion hd
  simp only [dateShaped, Bool.and_eq_true, beq_iff_eq] at hd
  obtain ⟨⟨⟨⟨⟨⟨⟨⟨⟨hy1, hy2⟩, hy3⟩, hy4⟩, hc1⟩, hm1⟩, hm2⟩, hc2⟩, hd1⟩, hd2⟩ := hd
  subst hc1
  subst hc2
  have h1 := reSubHeader_saved raw ts y1 y2 y3 y4 m1 m2 d1 d2
    hy1 hy2 hy3 hy4 hm1 hm2 hd1 hd2 hts hne hh hcl
  have hx : reSubHeader raw = raw := by
    rw [reSubHeader]
    exact cleanScan_reSubGo raw.length true raw le_rfl hcl
  have hclnl : cleanScan true (raw ++ ['\n']) = true := by
    rw [cleanScan_append_nl]
    exact hcl
  have hx2 : reSubHeader (raw ++ ['\n']) = raw ++ ['\n'] := by
    rw [reSubHeader]
    exact cleanScan_reSubGo (raw ++ ['\n']).length true (raw ++ ['\n']) le_rfl hclnl
  have hsep : ¬ EndsWithSep raw := fun h => by
    rw [endsWithSepB_of_endsWithSep raw h] at hsepb
    exact Bool.noConfusion hsepb
  have heq : parse_news_content
      (saved_file_content raw [y1, y2, y3, y4, '-', m1, m2, '-', d1, d2] ts)
      = parse_news_content (raw ++ ['\n']) := by
    unfold parse_news_content
    rw [h1, hx2]
  exact ⟨h1, heq.trans (parse_append_nl raw hx hx2 hsep), hx⟩

/-- The round-trip theorem applies to a concrete digest, date and timestamp:
parsing the saved file of a well-shaped digest gives exactly the parse of the
raw digest. -/
theorem header_roundtrip_witness :
    dateShaped "2026-02-03".data = true ∧
    parse_news_content (saved_file_content
        "Intro text\n---\n### 1. Title A\n來源: X\n🔗 link".data
        "2026-02-03".data "2026-02-03 08:00:00".data)
      = parse_news_content "Intro text\n---\n### 1. Title A\n來源: X\n🔗 link".data :=
  ⟨by decide, (header_roundtrip
      "Intro text\n---\n### 1. Title A\n來源: X\n🔗 link".data
      "2026-02-03".data "2026-02-03 08:00:00".data
      (by decide) (by decide) (by decide) (by decide) (by decide) (by decide)).2.1⟩

end AlephDaily
